import Mathlib

/-!
Verification of the task/file lifecycle manager of a media download service.
The definitions below are a shallow embedding of the Python source in
src/app.py: pure helpers become Lean functions, the in-memory registries
become association lists, timestamps become integers (seconds), and the
concurrent download pipeline becomes a small-step transition system.
-/

/-- Task status enum, mirroring TaskStatus in app.py. -/
inductive TaskStatus
  | pending
  | processing
  | completed
  | failed
  | paused
deriving DecidableEq, Repr

/-- A task record, keeping the fields relevant to expiry (TaskManager.tasks values). -/
structure TaskRec where
  status : TaskStatus
  updated_at : Int
deriving DecidableEq, Repr

/-- TaskManager.cleanup_interval = 7200 seconds. -/
def cleanup_interval : Int := 7200

/-- The removal condition tested by TaskManager.cleanup_old_tasks for one task:
age strictly above cleanup_interval and terminal status. -/
def shouldExpire (now : Int) (t : TaskRec) : Bool :=
  decide (now - t.updated_at > cleanup_interval) &&
    (t.status == TaskStatus.completed || t.status == TaskStatus.failed)

/-- TaskManager.cleanup_old_tasks: collect ids meeting the removal condition and
delete them; the surviving map is the filter by the negated condition. -/
def cleanup_old_tasks (now : Int) (tasks : List (String × TaskRec)) :
    List (String × TaskRec) :=
  tasks.filter fun p => ! shouldExpire now p.2

/-- A file record as stored by FileManager.register_file. -/
structure FileRec where
  file_path : String
  temp_dir : String
  filename : String
  created_at : Int
  downloaded : Bool
  file_size : Nat
  access_count : Nat
deriving DecidableEq, Repr

/-- FileManager.mark_downloaded: if the id is present, set downloaded to true and
increment access_count. -/
def mark_downloaded (files : List (String × FileRec)) (task_id : String) :
    List (String × FileRec) :=
  files.map fun p =>
    if p.1 = task_id then
      (p.1, { p.2 with downloaded := true, access_count := p.2.access_count + 1 })
    else p

/-- Helper used to state the amended idempotence property: increment only the
access counter of the records with the given id, leaving every other field alone. -/
def bump_access (files : List (String × FileRec)) (task_id : String) :
    List (String × FileRec) :=
  files.map fun p =>
    if p.1 = task_id then
      (p.1, { p.2 with access_count := p.2.access_count + 1 })
    else p

/-- The reclaim condition tested by FileManager.cleanup_old_files for one record:
age above max_file_age, or already downloaded and age above 600 seconds. -/
def shouldReclaim (now : Int) (max_file_age : Int) (f : FileRec) : Bool :=
  decide (now - f.created_at > max_file_age) ||
    (f.downloaded && decide (now - f.created_at > 600))

/-- FileManager.cleanup_old_files: every record meeting the reclaim condition is
passed to cleanup_file, which removes it; the surviving map is the filter by the
negated condition.  max_file_age is a parameter because the source mutates it
between 1800 and 3600 under disk pressure. -/
def cleanup_old_files (now : Int) (max_file_age : Int)
    (files : List (String × FileRec)) : List (String × FileRec) :=
  files.filter fun p => ! shouldReclaim now max_file_age p.2

/-- TaskManager.increment_active_downloads on the counter value. -/
def increment_active_downloads (c : Int) : Int := c + 1

/-- TaskManager.decrement_active_downloads on the counter value: max(0, c - 1). -/
def decrement_active_downloads (c : Int) : Int := max 0 (c - 1)

/-- One call into the TaskManager counter interface. -/
inductive CounterOp
  | inc
  | dec
deriving DecidableEq, Repr

/-- Apply a sequence of increment/decrement calls to the counter. -/
def applyCounterOps (ops : List CounterOp) (c : Int) : Int :=
  ops.foldl
    (fun acc op =>
      match op with
      | CounterOp.inc => increment_active_downloads acc
      | CounterOp.dec => decrement_active_downloads acc)
    c

/-- YouTubeDownloader._format_duration, for integer seconds. -/
def format_duration (seconds : Nat) : String :=
  if seconds = 0 then "Unknown"
  else
    let hours := seconds / 3600
    let minutes := (seconds % 3600) / 60
    let secs := seconds % 60
    if hours > 0 then
      toString hours ++ "h " ++ toString minutes ++ "m " ++ toString secs ++ "s"
    else if minutes > 0 then
      toString minutes ++ "m " ++ toString secs ++ "s"
    else
      toString secs ++ "s"

/-- Modelled from the spec: render the duration as hour, minute and second units
joined by single spaces, dropping leading zero units (no hour unit when hours is
zero, no minute unit when hours and minutes are both zero). -/
def joinUnits : List String → String
  | [] => ""
  | u :: rest => rest.foldl (fun acc v => acc ++ " " ++ v) u

/-- Modelled from the spec: the list of rendered units of a duration, leading
zero units dropped. -/
def duration_units (seconds : Nat) : List String :=
  let hours := seconds / 3600
  let minutes := (seconds % 3600) / 60
  let secs := seconds % 60
  (if hours = 0 then [] else [toString hours ++ "h"]) ++
    (if hours = 0 ∧ minutes = 0 then [] else [toString minutes ++ "m"]) ++
    [toString secs ++ "s"]

/-- Modelled from the spec: duration formatter described as H h M m S s with
leading zero units dropped. -/
def spec_format_duration (seconds : Nat) : String :=
  joinUnits (duration_units seconds)

/-- Round the exact fraction num over den (den positive) to the nearest
integer, ties to even, matching the decimal rounding performed by Python float
formatting with zero decimals. -/
def roundHalfEvenFrac (num den : Nat) : Nat :=
  let q := num / den
  let r := num % den
  if 2 * r < den then q
  else if den < 2 * r then q + 1
  else if q % 2 = 0 then q else q + 1

/-- Render the exact fraction num over den with zero decimal places, as Python
does for a .0f format. -/
def fmt0Frac (num den : Nat) : String := toString (roundHalfEvenFrac num den)

/-- Render the exact fraction num over den with one decimal place, as Python
does for a .1f format. -/
def fmt1Frac (num den : Nat) : String :=
  let t := roundHalfEvenFrac (num * 10) den
  toString (t / 10) ++ "." ++ toString (t % 10)

/-- The bitrates dictionary of _estimate_file_size in tenths of a MB per
minute, with the source default of 5 MB per minute for an unknown height.
Tenths keep the audio rate of 2.4 MB per minute exact. -/
def bitrates10 (height : Nat) : Nat :=
  if height = 1080 then 80
  else if height = 720 then 50
  else if height = 480 then 30
  else 50

/-- The rendering branch shared by the size estimators, on the exact value
size_mb = num over den: gigabytes with one decimal when size_mb is strictly
above 1024, else whole megabytes. -/
def render_size (num den : Nat) : String :=
  if 1024 * den < num then "~" ++ fmt1Frac num (den * 1024) ++ " GB"
  else "~" ++ fmt0Frac num den ++ " MB"

/-- YouTubeDownloader._estimate_file_size for integer duration in seconds:
size_mb = (duration / 60) * bitrate, held as the exact fraction
duration * bitrates10 over 600. -/
def estimate_file_size (duration : Nat) (height : Nat) : String :=
  if duration = 0 then "Unknown"
  else render_size (duration * bitrates10 height) 600

/-- YouTubeDownloader._estimate_audio_size: 2.4 MB per minute, held as the
exact fraction duration * 24 over 600. -/
def estimate_audio_size (duration : Nat) : String :=
  if duration = 0 then "Unknown"
  else render_size (duration * 24) 600

/-- Modelled from the spec: size rendering as claimed, megabytes when the size
in MB is strictly below 1024 and gigabytes otherwise. -/
def spec_render_size (num den : Nat) : String :=
  if num < 1024 * den then "~" ++ fmt0Frac num den ++ " MB"
  else "~" ++ fmt1Frac num (den * 1024) ++ " GB"

/-- Modelled from the spec: estimated size of the claim for a rate given in
tenths of a MB per minute, duration in minutes times the rate, rendered with
the strictly-below-1024 boundary. -/
def spec_estimate (duration : Nat) (rate10 : Nat) : String :=
  spec_render_size (duration * rate10) 600

/-- Modelled from the spec, amended at the boundary: megabytes when the size in
MB is at most 1024, gigabytes when it is strictly above. -/
def spec_render_size_amended (num den : Nat) : String :=
  if num <= 1024 * den then "~" ++ fmt0Frac num den ++ " MB"
  else "~" ++ fmt1Frac num (den * 1024) ++ " GB"

/-- The amended spec estimator using the at-most-1024 boundary. -/
def spec_estimate_amended (duration : Nat) (rate10 : Nat) : String :=
  spec_render_size_amended (duration * rate10) 600

/-- Status field of a yt-dlp progress event. -/
inductive HookStatus
  | downloading
  | finished
  | other
deriving DecidableEq, Repr

/-- A yt-dlp progress event as consumed by progress_hook; a missing or falsy
total_bytes field is modelled as total_bytes = 0. -/
structure HookEvent where
  status : HookStatus
  downloaded_bytes : Nat
  total_bytes : Nat
deriving DecidableEq, Repr

/-- The progress value stored by progress_hook in _download_video_sync: for a
downloading event with truthy total_bytes, min of 95 and the integer part of
downloaded over total times 80, plus 15; for a finished event, 98.  Returns
none when the branch stores no progress value. -/
def progress_hook (e : HookEvent) : Option Nat :=
  match e.status with
  | HookStatus.downloading =>
      if e.total_bytes ≠ 0 then
        some (min (e.downloaded_bytes * 80 / e.total_bytes + 15) 95)
      else none
  | HookStatus.finished => some 98
  | HookStatus.other => none

/-- The character class of the regex fragment combining word characters and a
dash, restricted to ASCII. -/
def isWordDash (c : Char) : Bool :=
  c.isAlphanum || c == '_' || c == '-'

/-- Consume an exact literal from the front of a character list, returning the
remainder on success. -/
def stripLit : List Char → List Char → Option (List Char)
  | [], s => some s
  | _ :: _, [] => none
  | c :: cs, d :: ds => if c == d then stripLit cs ds else none

/-- Consume an optional literal from the front of a character list.  The
patterns below never let the optional literal overlap what follows it, so no
backtracking is needed. -/
def stripOpt (lit : List Char) (s : List Char) : List Char :=
  match stripLit lit s with
  | some r => r
  | none => s

/-- Test that the remainder starts with at least one word-or-dash character;
re.match allows arbitrary trailing characters after the pattern. -/
def startsWordDash : List Char → Bool
  | [] => false
  | c :: _ => isWordDash c

/-- Match one of the six anchored URL patterns of is_valid_youtube_url: the
scheme http with optional s, the optional subdomain, the fixed host-and-path
literal, then one or more word-or-dash characters. -/
def matchesPattern (optSub : String) (hostPath : String) (s : List Char) : Bool :=
  match stripLit "http".toList s with
  | none => false
  | some s1 =>
      match stripLit "://".toList (stripOpt "s".toList s1) with
      | none => false
      | some s2 =>
          match stripLit hostPath.toList (stripOpt optSub.toList s2) with
          | none => false
          | some s3 => startsWordDash s3

/-- YouTubeDownloader.is_valid_youtube_url: true when any of the six patterns
matches at the start of the string. -/
def is_valid_youtube_url (url : String) : Bool :=
  matchesPattern "www." "youtube.com/watch?v=" url.data ||
    matchesPattern "www." "youtube.com/embed/" url.data ||
    matchesPattern "" "youtu.be/" url.data ||
    matchesPattern "m." "youtube.com/watch?v=" url.data ||
    matchesPattern "www." "youtube.com/v/" url.data ||
    matchesPattern "www." "youtube.com/shorts/" url.data

/-- Outcome of the /extract endpoint body: either an immediate 400 response, or
the call into downloader.extract_video_info, which invokes the external tool. -/
inductive ExtractOutcome
  | error400
  | toolInvoked (url : String)
deriving DecidableEq, Repr

/-- The strip method of Python strings: drop whitespace from both ends. -/
def pyStrip (url : String) : String :=
  String.mk (((url.data.dropWhile Char.isWhitespace).reverse.dropWhile
    Char.isWhitespace).reverse)

/-- The validation prefix of the /extract handler: strip the URL, reject an
empty or non-matching URL with status 400 before the external tool is reached. -/
def extract_endpoint (url : String) : ExtractOutcome :=
  let u := pyStrip url
  if u = "" then ExtractOutcome.error400
  else if is_valid_youtube_url u then ExtractOutcome.toolInvoked u
  else ExtractOutcome.error400

/-- Program counter of one execution of download_video_async: before the
semaphore, polling can_start_download inside the semaphore, past the poll but
before the increment, incremented (the guarded download runs, succeeding or
failing), and finished (the finally block has decremented). -/
inductive PC
  | start
  | polling
  | passed
  | running
  | done
deriving DecidableEq, Repr

/-- One job: its program counter and how many decrement calls it has made. -/
structure Job where
  pc : PC
  decs : Nat
deriving DecidableEq, Repr

/-- TaskManager.max_concurrent_downloads, equal to the capacity of
download_semaphore. -/
def max_concurrent_downloads : Nat := 3

/-- A job currently holding a download_semaphore slot. -/
def inSem (j : Job) : Bool :=
  j.pc == PC.polling || j.pc == PC.passed || j.pc == PC.running

/-- A job that has incremented active_downloads and not yet decremented. -/
def isRunning (j : Job) : Bool := j.pc == PC.running

/-- Number of jobs holding a semaphore slot. -/
def nSem (l : List Job) : Nat := l.countP inSem

/-- Number of jobs between their increment and their decrement. -/
def nRun (l : List Job) : Nat := l.countP isRunning

/-- Global state: the active_downloads counter and the per-job states. -/
structure Sys where
  active : Int
  jobs : List Job

/-- Interleaved small-step semantics of the concurrent executions of
download_video_async.  Each constructor picks one job (the middle of an append)
and performs one atomic action of the source: acquiring a semaphore slot,
observing can_start_download return true, calling increment_active_downloads,
reaching the finally block after success or failure of the guarded body, or
reaching the finally block via an exception raised before the increment. -/
inductive Step : Sys → Sys → Prop
  | acquire (a : Int) (l1 l2 : List Job) (d : Nat)
      (hsem : nSem (l1 ++ Job.mk PC.start d :: l2) < max_concurrent_downloads) :
      Step (Sys.mk a (l1 ++ Job.mk PC.start d :: l2))
        (Sys.mk a (l1 ++ Job.mk PC.polling d :: l2))
  | checkPass (a : Int) (l1 l2 : List Job) (d : Nat)
      (hcan : a < max_concurrent_downloads) :
      Step (Sys.mk a (l1 ++ Job.mk PC.polling d :: l2))
        (Sys.mk a (l1 ++ Job.mk PC.passed d :: l2))
  | increment (a : Int) (l1 l2 : List Job) (d : Nat) :
      Step (Sys.mk a (l1 ++ Job.mk PC.passed d :: l2))
        (Sys.mk (increment_active_downloads a) (l1 ++ Job.mk PC.running d :: l2))
  | finish (a : Int) (l1 l2 : List Job) (d : Nat) :
      Step (Sys.mk a (l1 ++ Job.mk PC.running d :: l2))
        (Sys.mk (decrement_active_downloads a) (l1 ++ Job.mk PC.done (d + 1) :: l2))
  | abortPolling (a : Int) (l1 l2 : List Job) (d : Nat) :
      Step (Sys.mk a (l1 ++ Job.mk PC.polling d :: l2))
        (Sys.mk (decrement_active_downloads a) (l1 ++ Job.mk PC.done (d + 1) :: l2))
  | abortPassed (a : Int) (l1 l2 : List Job) (d : Nat) :
      Step (Sys.mk a (l1 ++ Job.mk PC.passed d :: l2))
        (Sys.mk (decrement_active_downloads a) (l1 ++ Job.mk PC.done (d + 1) :: l2))

/-- The initial state for n submitted jobs: counter zero, every job waiting. -/
def initSys (n : Nat) : Sys :=
  Sys.mk 0 (List.replicate n (Job.mk PC.start 0))

/-- States reachable by interleaving the jobs from the initial state. -/
inductive Reachable (n : Nat) : Sys → Prop
  | init : Reachable n (initSys n)
  | step {s t : Sys} : Reachable n s → Step s t → Reachable n t

/-- Each done job has decremented exactly once; no live job has decremented. -/
def JobsOK (l : List Job) : Prop :=
  ∀ j ∈ l, j.decs = if j.pc = PC.done then 1 else 0

/-- The inductive invariant of the limiter: the counter is nonnegative, bounded
by the number of jobs past their increment, at most three jobs hold semaphore
slots, and the decrement bookkeeping is exact. -/
def LimiterInv (s : Sys) : Prop :=
  0 ≤ s.active ∧ s.active ≤ (nRun s.jobs : Int) ∧
    nSem s.jobs ≤ max_concurrent_downloads ∧ JobsOK s.jobs

/-- Helper: the counter stays nonnegative from any nonnegative start. -/
theorem applyCounterOps_nonneg (ops : List CounterOp) :
    ∀ c : Int, 0 ≤ c → 0 ≤ applyCounterOps ops c := by
  induction ops with
  | nil => intro c h; simpa [applyCounterOps] using h
  | cons op rest ih =>
      intro c h
      cases op with
      | inc =>
          have : applyCounterOps (CounterOp.inc :: rest) c =
              applyCounterOps rest (increment_active_downloads c) := rfl
          rw [this]
          exact ih _ (by simp [increment_active_downloads]; omega)
      | dec =>
          have : applyCounterOps (CounterOp.dec :: rest) c =
              applyCounterOps rest (decrement_active_downloads c) := rfl
          rw [this]
          exact ih _ (le_max_left 0 _)

/-- C9: starting from 0, after every sequence of increment_active_downloads
and decrement_active_downloads calls the active-downloads counter is
nonnegative, because decrement clamps at zero. -/
theorem active_downloads_counter_nonneg (ops : List CounterOp) :
    0 ≤ applyCounterOps ops 0 :=
  applyCounterOps_nonneg ops 0 le_rfl

/-- C10: a zero (or absent, which reaches the same falsy branch) duration makes
the duration formatter and both size estimators return the string Unknown. -/
theorem zero_duration_renders_unknown :
    format_duration 0 = "Unknown" ∧
      (∀ h : Nat, estimate_file_size 0 h = "Unknown") ∧
      estimate_audio_size 0 = "Unknown" :=
  ⟨rfl, fun _ => rfl, rfl⟩

/-- C4 counterexample: mark_downloaded is not idempotent; on a registry with a
single fresh record, applying it twice yields access_count 2 while applying it
once yields access_count 1. -/
theorem mark_downloaded_not_idempotent :
    mark_downloaded (mark_downloaded
        [("t", FileRec.mk "/tmp/d/f.mp4" "/tmp/d" "f.mp4" 0 false 100 0)] "t") "t" ≠
      mark_downloaded
        [("t", FileRec.mk "/tmp/d/f.mp4" "/tmp/d" "f.mp4" 0 false 100 0)] "t" := by
  decide

/-- C4 amended: applying mark_downloaded twice equals applying it once and then
bumping only the access counters of the marked id, so the operation is
idempotent on every field except access_count; in particular the id-and-flag
projection of the registry is unchanged by the second application. -/
theorem mark_downloaded_idempotent_except_count
    (files : List (String × FileRec)) (task_id : String) :
    mark_downloaded (mark_downloaded files task_id) task_id =
        bump_access (mark_downloaded files task_id) task_id ∧
      (mark_downloaded (mark_downloaded files task_id) task_id).map
          (fun p => (p.1, p.2.downloaded)) =
        (mark_downloaded files task_id).map (fun p => (p.1, p.2.downloaded)) := by
  constructor
  · unfold mark_downloaded bump_access
    simp only [List.map_map]
    apply List.map_congr_left
    intro p _
    by_cases h : p.1 = task_id <;> simp [h]
  · unfold mark_downloaded
    simp only [List.map_map]
    apply List.map_congr_left
    intro p _
    by_cases h : p.1 = task_id <;> simp [h]

/-- Helper: membership in the surviving task map versus the removal condition. -/
theorem mem_cleanup_old_tasks_iff (now : Int) (tasks : List (String × TaskRec))
    (p : String × TaskRec) (hp : p ∈ tasks) :
    p ∈ cleanup_old_tasks now tasks ↔ ¬ shouldExpire now p.2 = true := by
  simp [cleanup_old_tasks, List.mem_filter, hp]

/-- Helper: the removal condition of cleanup_old_tasks, as a proposition. -/
theorem shouldExpire_iff (now : Int) (t : TaskRec) :
    shouldExpire now t = true ↔
      (cleanup_interval < now - t.updated_at ∧
        (t.status = TaskStatus.completed ∨ t.status = TaskStatus.failed)) := by
  simp [shouldExpire]

/-- C2: cleanup_old_tasks removes exactly the tasks that are completed or
failed and whose updated_at is older than cleanup_interval; pending or
processing tasks are retained at every age, and no task within the window is
removed. -/
theorem cleanup_old_tasks_removes_exactly (now : Int)
    (tasks : List (String × TaskRec)) (p : String × TaskRec) (hp : p ∈ tasks) :
    (p ∉ cleanup_old_tasks now tasks ↔
        (cleanup_interval < now - p.2.updated_at ∧
          (p.2.status = TaskStatus.completed ∨ p.2.status = TaskStatus.failed))) ∧
      ((p.2.status = TaskStatus.pending ∨ p.2.status = TaskStatus.processing) →
        p ∈ cleanup_old_tasks now tasks) ∧
      (now - p.2.updated_at ≤ cleanup_interval → p ∈ cleanup_old_tasks now tasks) := by
  have hmem := mem_cleanup_old_tasks_iff now tasks p hp
  have hkey := shouldExpire_iff now p.2
  refine ⟨?_, ?_, ?_⟩
  · rw [hmem, not_not, hkey]
  · intro hst
    rw [hmem, hkey]
    rintro ⟨-, hc | hc⟩ <;> rcases hst with h2 | h2 <;> rw [h2] at hc <;> cases hc
  · intro hle
    rw [hmem, hkey]
    rintro ⟨hlt, -⟩
    omega

/-- C2 witness: a completed task three hours stale is removed, while the same
theorem applied to a fresh processing task shows it retained. -/
theorem cleanup_old_tasks_removes_exactly_witness :
    (("a", TaskRec.mk TaskStatus.completed 0) ∉
        cleanup_old_tasks 10800 [("a", TaskRec.mk TaskStatus.completed 0)] ↔
      (cleanup_interval < (10800 : Int) - 0 ∧
        (TaskStatus.completed = TaskStatus.completed ∨
          TaskStatus.completed = TaskStatus.failed))) ∧
      ((TaskStatus.completed = TaskStatus.pending ∨
          TaskStatus.completed = TaskStatus.processing) →
        ("a", TaskRec.mk TaskStatus.completed 0) ∈
          cleanup_old_tasks 10800 [("a", TaskRec.mk TaskStatus.completed 0)]) ∧
      ((10800 : Int) - 0 ≤ cleanup_interval →
        ("a", TaskRec.mk TaskStatus.completed 0) ∈
          cleanup_old_tasks 10800 [("a", TaskRec.mk TaskStatus.completed 0)]) :=
  cleanup_old_tasks_removes_exactly 10800
    [("a", TaskRec.mk TaskStatus.completed 0)]
    ("a", TaskRec.mk TaskStatus.completed 0) (by decide)

/-- Helper: membership in the surviving file map versus the reclaim condition. -/
theorem mem_cleanup_old_files_iff (now max_file_age : Int)
    (files : List (String × FileRec)) (p : String × FileRec) (hp : p ∈ files) :
    p ∈ cleanup_old_files now max_file_age files ↔
      ¬ shouldReclaim now max_file_age p.2 = true := by
  simp [cleanup_old_files, List.mem_filter, hp]

/-- Helper: the reclaim condition of cleanup_old_files, as a proposition. -/
theorem shouldReclaim_iff (now max_file_age : Int) (f : FileRec) :
    shouldReclaim now max_file_age f = true ↔
      (max_file_age < now - f.created_at ∨
        (f.downloaded = true ∧ 600 < now - f.created_at)) := by
  simp [shouldReclaim]

/-- C3: cleanup_old_files reclaims exactly the records whose age exceeds
max_file_age or that are downloaded and older than the 600 second grace
window; a never-downloaded record past max_file_age is reclaimed, and a
not-yet-aged undownloaded record is kept. -/
theorem cleanup_old_files_reclaims_exactly (now max_file_age : Int)
    (files : List (String × FileRec)) (p : String × FileRec) (hp : p ∈ files) :
    (p ∉ cleanup_old_files now max_file_age files ↔
        (max_file_age < now - p.2.created_at ∨
          (p.2.downloaded = true ∧ 600 < now - p.2.created_at))) ∧
      (p.2.downloaded = false → max_file_age < now - p.2.created_at →
        p ∉ cleanup_old_files now max_file_age files) ∧
      (p.2.downloaded = false → now - p.2.created_at ≤ max_file_age →
        p ∈ cleanup_old_files now max_file_age files) := by
  have hmem := mem_cleanup_old_files_iff now max_file_age files p hp
  have hkey := shouldReclaim_iff now max_file_age p.2
  refine ⟨?_, ?_, ?_⟩
  · rw [← hkey]
    constructor
    · intro hno
      by_contra hs
      exact hno (hmem.mpr hs)
    · intro hs hin
      exact (hmem.mp hin) hs
  · intro hdl hage hin
    exact (hmem.mp hin) (hkey.mpr (Or.inl hage))
  · intro hdl hage
    apply hmem.mpr
    rw [hkey]
    rintro (hc | ⟨hc, -⟩)
    · omega
    · rw [hdl] at hc; cases hc

/-- C3 witness: an hour-plus-old record that was never downloaded is reclaimed
by the sweep. -/
theorem cleanup_old_files_reclaims_exactly_witness :
    ((("a", FileRec.mk "/tmp/d/f.mp4" "/tmp/d" "f.mp4" 0 false 10 0) ∉
        cleanup_old_files 4000 3600
          [("a", FileRec.mk "/tmp/d/f.mp4" "/tmp/d" "f.mp4" 0 false 10 0)] ↔
      ((3600 : Int) < (4000 : Int) - 0 ∨
        (false = true ∧ (600 : Int) < (4000 : Int) - 0))) ∧
      (false = false → (3600 : Int) < (4000 : Int) - 0 →
        ("a", FileRec.mk "/tmp/d/f.mp4" "/tmp/d" "f.mp4" 0 false 10 0) ∉
          cleanup_old_files 4000 3600
            [("a", FileRec.mk "/tmp/d/f.mp4" "/tmp/d" "f.mp4" 0 false 10 0)]) ∧
      (false = false → (4000 : Int) - 0 ≤ 3600 →
        ("a", FileRec.mk "/tmp/d/f.mp4" "/tmp/d" "f.mp4" 0 false 10 0) ∈
          cleanup_old_files 4000 3600
            [("a", FileRec.mk "/tmp/d/f.mp4" "/tmp/d" "f.mp4" 0 false 10 0)])) :=
  cleanup_old_files_reclaims_exactly 4000 3600
    [("a", FileRec.mk "/tmp/d/f.mp4" "/tmp/d" "f.mp4" 0 false 10 0)]
    ("a", FileRec.mk "/tmp/d/f.mp4" "/tmp/d" "f.mp4" 0 false 10 0) (by decide)

/-- Helper: joining a nonempty unit list inserts single spaces, left to right. -/
theorem joinUnits_two (a b : String) : joinUnits [a, b] = a ++ " " ++ b := rfl

/-- Helper: joining three units inserts two single spaces. -/
theorem joinUnits_three (a b c : String) :
    joinUnits [a, b, c] = a ++ " " ++ b ++ " " ++ c := rfl

/-- Helper: merging the hour unit with a following space. -/
theorem append_h_space (s : String) : "h" ++ (" " ++ s) = "h " ++ s := rfl

/-- Helper: merging the minute unit with a following space. -/
theorem append_m_space (s : String) : "m" ++ (" " ++ s) = "m " ++ s := rfl

/-- C6: for every positive number of seconds, _format_duration renders the
spec's H h M m S s shape with leading zero units dropped; in particular 45
gives 45s, 125 gives 2m 5s, and 3725 gives 1h 2m 5s. -/
theorem format_duration_drops_leading_zero_units (n : Nat) (hn : 0 < n) :
    format_duration n = spec_format_duration n ∧
      format_duration 45 = "45s" ∧
      format_duration 125 = "2m 5s" ∧
      format_duration 3725 = "1h 2m 5s" := by
  refine ⟨?_, by decide, by decide, by decide⟩
  have hne : n ≠ 0 := Nat.pos_iff_ne_zero.mp hn
  unfold format_duration spec_format_duration duration_units
  by_cases h1 : n / 3600 = 0
  · by_cases h2 : n % 3600 / 60 = 0
    · simp [hne, h1, h2, joinUnits]
    · have h2p : 0 < n % 3600 / 60 := Nat.pos_of_ne_zero h2
      simp [hne, h1, h2, h2p, joinUnits_two, String.append_assoc, append_m_space]
  · have h1p : 0 < n / 3600 := Nat.pos_of_ne_zero h1
    simp [hne, h1, h1p, joinUnits_three, String.append_assoc,
      append_h_space, append_m_space]

/-- C6 witness: the theorem applied at 3725 seconds, where all three units
appear. -/
theorem format_duration_drops_leading_zero_units_witness :
    0 < 3725 ∧
      (format_duration 3725 = spec_format_duration 3725 ∧
        format_duration 45 = "45s" ∧
        format_duration 125 = "2m 5s" ∧
        format_duration 3725 = "1h 2m 5s") :=
  ⟨by decide, format_duration_drops_leading_zero_units 3725 (by decide)⟩

/-- C7: for a downloading event with positive total bytes, progress_hook stores
min(floor(downloaded / total times 80) + 15, 95), every stored value lies in
15 to 95 inclusive, and a finished event stores 98.  The natural-number
division in the stored value coincides with the real floor of the claim. -/
theorem progress_hook_range (d t : Nat) (ht : 0 < t) :
    progress_hook (HookEvent.mk HookStatus.downloading d t) =
        some (min (d * 80 / t + 15) 95) ∧
      d * 80 / t = Nat.floor (((d : ℚ) / (t : ℚ)) * 80) ∧
      (∀ p, progress_hook (HookEvent.mk HookStatus.downloading d t) = some p →
        15 ≤ p ∧ p ≤ 95) ∧
      progress_hook (HookEvent.mk HookStatus.finished d t) = some 98 := by
  have htne : t ≠ 0 := Nat.pos_iff_ne_zero.mp ht
  refine ⟨by simp [progress_hook, htne], ?_, ?_, rfl⟩
  · rw [div_mul_eq_mul_div]
    have : ((d : ℚ)) * 80 = ((d * 80 : Nat) : ℚ) := by push_cast; ring
    rw [this, Nat.floor_div_nat, Nat.floor_natCast]
  · intro p hp
    simp only [progress_hook, htne, ne_eq, not_false_iff, if_true,
      Option.some_inj, if_pos] at hp
    constructor
    · rw [← hp]
      exact le_min (Nat.le_add_left 15 _) (by omega)
    · rw [← hp]
      exact min_le_right _ _

/-- C7 witness: a half-finished transfer of 80 bytes maps to progress 55. -/
theorem progress_hook_range_witness :
    0 < 80 ∧
      (progress_hook (HookEvent.mk HookStatus.downloading 40 80) =
          some (min (40 * 80 / 80 + 15) 95) ∧
        40 * 80 / 80 = Nat.floor (((40 : ℚ) / (80 : ℚ)) * 80) ∧
        (∀ p, progress_hook (HookEvent.mk HookStatus.downloading 40 80) = some p →
          15 ≤ p ∧ p ≤ 95) ∧
        progress_hook (HookEvent.mk HookStatus.finished 40 80) = some 98) :=
  ⟨by decide, progress_hook_range 40 80 (by decide)⟩

/-- C8: a request whose stripped URL is empty or matches none of the accepted
URL patterns is answered with status 400, and the external tool is not
invoked for it. -/
theorem extract_rejects_invalid_url (url : String)
    (h : pyStrip url = "" ∨ is_valid_youtube_url (pyStrip url) = false) :
    extract_endpoint url = ExtractOutcome.error400 ∧
      ∀ u, extract_endpoint url ≠ ExtractOutcome.toolInvoked u := by
  have h4 : extract_endpoint url = ExtractOutcome.error400 := by
    unfold extract_endpoint
    rcases h with h | h
    · simp [h]
    · by_cases he : pyStrip url = "" <;> simp [he, h]
  exact ⟨h4, fun u hu => by rw [h4] at hu; cases hu⟩

/-- C8 witness: a non-video URL is rejected with 400 and never reaches the
external tool. -/
theorem extract_rejects_invalid_url_witness :
    (pyStrip "https://example.com/watch?v=abc" = "" ∨
        is_valid_youtube_url (pyStrip "https://example.com/watch?v=abc") = false) ∧
      (extract_endpoint "https://example.com/watch?v=abc" = ExtractOutcome.error400 ∧
        ∀ u, extract_endpoint "https://example.com/watch?v=abc" ≠
          ExtractOutcome.toolInvoked u) :=
  ⟨Or.inr (by decide),
    extract_rejects_invalid_url "https://example.com/watch?v=abc" (Or.inr (by decide))⟩

/-- C5 counterexample: at duration 7680 seconds and height 1080 the size is
exactly 1024 MB; the code renders megabytes while the claimed strictly-below
boundary demands gigabytes, so the estimator differs from the claimed
rendering at this input. -/
theorem estimate_file_size_boundary_cex :
    estimate_file_size 7680 1080 = "~1024 MB" ∧
      spec_estimate 7680 80 = "~1.0 GB" ∧
      estimate_file_size 7680 1080 ≠ spec_estimate 7680 80 :=
  ⟨by decide, by decide, by decide⟩

/-- Helper: the source rendering agrees everywhere with the amended spec
rendering that uses the boundary at-most-1024 megabytes. -/
theorem render_size_eq_amended (num den : Nat) :
    render_size num den = spec_render_size_amended num den := by
  unfold render_size spec_render_size_amended
  rcases le_or_lt num (1024 * den) with h | h
  · rw [if_neg (not_lt.mpr h), if_pos h]
  · rw [if_pos h, if_neg (not_le.mpr h)]

/-- C5 amended: for every positive duration, the estimators equal duration in
minutes times the tier rate (8, 5, 3 and 2.4 MB per minute), rendered as whole
megabytes when the size is at most 1024 MB and as gigabytes with one decimal
above that; the three examples of the claim hold as stated. -/
theorem estimate_file_size_spec (d : Nat) (hd : 0 < d) :
    estimate_file_size d 1080 = spec_estimate_amended d 80 ∧
      estimate_file_size d 720 = spec_estimate_amended d 50 ∧
      estimate_file_size d 480 = spec_estimate_amended d 30 ∧
      estimate_audio_size d = spec_estimate_amended d 24 ∧
      estimate_file_size 600 720 = "~50 MB" ∧
      estimate_file_size 7200 1080 = "~960 MB" ∧
      estimate_file_size 13320 1080 = "~1.7 GB" := by
  have hne : d ≠ 0 := Nat.pos_iff_ne_zero.mp hd
  refine ⟨?_, ?_, ?_, ?_, by decide, by decide, by decide⟩ <;>
    simp [estimate_file_size, estimate_audio_size, spec_estimate_amended, hne,
      bitrates10, render_size_eq_amended]

/-- C5 witness: the amended estimator equalities at the ten-minute example. -/
theorem estimate_file_size_spec_witness :
    0 < 600 ∧
      (estimate_file_size 600 1080 = spec_estimate_amended 600 80 ∧
        estimate_file_size 600 720 = spec_estimate_amended 600 50 ∧
        estimate_file_size 600 480 = spec_estimate_amended 600 30 ∧
        estimate_audio_size 600 = spec_estimate_amended 600 24 ∧
        estimate_file_size 600 720 = "~50 MB" ∧
        estimate_file_size 7200 1080 = "~960 MB" ∧
        estimate_file_size 13320 1080 = "~1.7 GB") :=
  ⟨by decide, estimate_file_size_spec 600 (by decide)⟩

/-- Helper: semaphore-holder count across an append with a middle job. -/
theorem nSem_middle (l1 l2 : List Job) (j : Job) :
    nSem (l1 ++ j :: l2) = nSem l1 + nSem l2 + (if inSem j then 1 else 0) := by
  simp [nSem, List.countP_append, List.countP_cons]
  omega

/-- Helper: running-job count across an append with a middle job. -/
theorem nRun_middle (l1 l2 : List Job) (j : Job) :
    nRun (l1 ++ j :: l2) = nRun l1 + nRun l2 + (if isRunning j then 1 else 0) := by
  simp [nRun, List.countP_append, List.countP_cons]
  omega

/-- Helper: the decrement bookkeeping of the distinguished middle job. -/
theorem JobsOK_mid {l1 l2 : List Job} {j : Job} (h : JobsOK (l1 ++ j :: l2)) :
    j.decs = if j.pc = PC.done then 1 else 0 :=
  h j (List.mem_append_right l1 (List.mem_cons_self j l2))

/-- Helper: replacing the middle job preserves the decrement bookkeeping when
the new job satisfies it. -/
theorem JobsOK_replace {l1 l2 : List Job} {j j2 : Job} (h : JobsOK (l1 ++ j :: l2))
    (h2 : j2.decs = if j2.pc = PC.done then 1 else 0) :
    JobsOK (l1 ++ j2 :: l2) := by
  intro x hx
  rcases List.mem_append.mp hx with hx | hx
  · exact h x (List.mem_append_left _ hx)
  · rcases List.mem_cons.mp hx with rfl | hx
    · exact h2
    · exact h x (List.mem_append_right _ (List.mem_cons_of_mem _ hx))

/-- Helper: every running job holds a semaphore slot. -/
theorem nRun_le_nSem (l : List Job) : nRun l ≤ nSem l := by
  apply List.countP_mono_left
  intro j _ hj
  simp [isRunning] at hj
  simp [inSem, hj]

/-- Helper: bounding the clamped decrement by a natural bound. -/
theorem max_zero_sub_le {a : Int} {m : Nat} (h : a - 1 ≤ (m : Int)) :
    max 0 (a - 1) ≤ (m : Int) :=
  max_le (Int.natCast_nonneg m) h

/-- Helper: one interleaved step preserves the limiter invariant. -/
theorem step_preserves_inv {s t : Sys} (hinv : LimiterInv s) (hst : Step s t) :
    LimiterInv t := by
  cases hst with
  | acquire a l1 l2 d hsemlt =>
      obtain ⟨hnn, hrun, hsem, hok⟩ := hinv
      dsimp only at hnn hrun hsem hok
      have hmid := JobsOK_mid hok
      have e1 := nRun_middle l1 l2 (Job.mk PC.start d)
      have e2 := nRun_middle l1 l2 (Job.mk PC.polling d)
      have e3 := nSem_middle l1 l2 (Job.mk PC.start d)
      have e4 := nSem_middle l1 l2 (Job.mk PC.polling d)
      simp only [isRunning, inSem] at e1 e2 e3 e4
      simp at e1 e2 e3 e4
      refine ⟨hnn, ?_, ?_, JobsOK_replace hok (by simpa using hmid)⟩
      · show a ≤ (nRun (l1 ++ Job.mk PC.polling d :: l2) : Int)
        rw [e2]
        rw [show nRun (l1 ++ Job.mk PC.start d :: l2) = nRun l1 + nRun l2 from e1] at hrun
        omega
      · show nSem (l1 ++ Job.mk PC.polling d :: l2) ≤ max_concurrent_downloads
        rw [e4]
        rw [show nSem (l1 ++ Job.mk PC.start d :: l2) = nSem l1 + nSem l2 from e3] at hsemlt
        unfold max_concurrent_downloads at hsemlt ⊢
        omega
  | checkPass a l1 l2 d hcan =>
      obtain ⟨hnn, hrun, hsem, hok⟩ := hinv
      dsimp only at hnn hrun hsem hok
      have hmid := JobsOK_mid hok
      have e1 := nRun_middle l1 l2 (Job.mk PC.polling d)
      have e2 := nRun_middle l1 l2 (Job.mk PC.passed d)
      have e3 := nSem_middle l1 l2 (Job.mk PC.polling d)
      have e4 := nSem_middle l1 l2 (Job.mk PC.passed d)
      simp only [isRunning, inSem] at e1 e2 e3 e4
      simp at e1 e2 e3 e4
      refine ⟨hnn, ?_, ?_, JobsOK_replace hok (by simpa using hmid)⟩
      · show a ≤ (nRun (l1 ++ Job.mk PC.passed d :: l2) : Int)
        rw [e2]
        rw [show nRun (l1 ++ Job.mk PC.polling d :: l2) = nRun l1 + nRun l2 from e1] at hrun
        omega
      · show nSem (l1 ++ Job.mk PC.passed d :: l2) ≤ max_concurrent_downloads
        rw [e4]
        rw [show nSem (l1 ++ Job.mk PC.polling d :: l2) = nSem l1 + nSem l2 + 1 from e3] at hsem
        omega
  | increment a l1 l2 d =>
      obtain ⟨hnn, hrun, hsem, hok⟩ := hinv
      dsimp only at hnn hrun hsem hok
      have hmid := JobsOK_mid hok
      have e1 := nRun_middle l1 l2 (Job.mk PC.passed d)
      have e2 := nRun_middle l1 l2 (Job.mk PC.running d)
      have e3 := nSem_middle l1 l2 (Job.mk PC.passed d)
      have e4 := nSem_middle l1 l2 (Job.mk PC.running d)
      simp only [isRunning, inSem] at e1 e2 e3 e4
      simp at e1 e2 e3 e4
      have hd0 : d = 0 := by simpa using hmid
      refine ⟨?_, ?_, ?_, JobsOK_replace hok (by simp [hd0])⟩
      · show (0 : Int) ≤ increment_active_downloads a
        unfold increment_active_downloads
        omega
      · show increment_active_downloads a ≤ (nRun (l1 ++ Job.mk PC.running d :: l2) : Int)
        unfold increment_active_downloads
        rw [e2]
        rw [show nRun (l1 ++ Job.mk PC.passed d :: l2) = nRun l1 + nRun l2 from e1] at hrun
        omega
      · show nSem (l1 ++ Job.mk PC.running d :: l2) ≤ max_concurrent_downloads
        rw [e4]
        rw [show nSem (l1 ++ Job.mk PC.passed d :: l2) = nSem l1 + nSem l2 + 1 from e3] at hsem
        omega
  | finish a l1 l2 d =>
      obtain ⟨hnn, hrun, hsem, hok⟩ := hinv
      dsimp only at hnn hrun hsem hok
      have hmid := JobsOK_mid hok
      have e1 := nRun_middle l1 l2 (Job.mk PC.running d)
      have e2 := nRun_middle l1 l2 (Job.mk PC.done (d + 1))
      have e3 := nSem_middle l1 l2 (Job.mk PC.running d)
      have e4 := nSem_middle l1 l2 (Job.mk PC.done (d + 1))
      simp only [isRunning, inSem] at e1 e2 e3 e4
      simp at e1 e2 e3 e4
      have hd0 : d = 0 := by simpa using hmid
      refine ⟨?_, ?_, ?_, JobsOK_replace hok (by simp [hd0])⟩
      · exact le_max_left 0 _
      · show decrement_active_downloads a ≤ (nRun (l1 ++ Job.mk PC.done (d + 1) :: l2) : Int)
        unfold decrement_active_downloads
        rw [e2]
        apply max_zero_sub_le
        rw [show nRun (l1 ++ Job.mk PC.running d :: l2) = nRun l1 + nRun l2 + 1 from e1] at hrun
        omega
      · show nSem (l1 ++ Job.mk PC.done (d + 1) :: l2) ≤ max_concurrent_downloads
        rw [e4]
        rw [show nSem (l1 ++ Job.mk PC.running d :: l2) = nSem l1 + nSem l2 + 1 from e3] at hsem
        omega
  | abortPolling a l1 l2 d =>
      obtain ⟨hnn, hrun, hsem, hok⟩ := hinv
      dsimp only at hnn hrun hsem hok
      have hmid := JobsOK_mid hok
      have e1 := nRun_middle l1 l2 (Job.mk PC.polling d)
      have e2 := nRun_middle l1 l2 (Job.mk PC.done (d + 1))
      have e3 := nSem_middle l1 l2 (Job.mk PC.polling d)
      have e4 := nSem_middle l1 l2 (Job.mk PC.done (d + 1))
      simp only [isRunning, inSem] at e1 e2 e3 e4
      simp at e1 e2 e3 e4
      have hd0 : d = 0 := by simpa using hmid
      refine ⟨?_, ?_, ?_, JobsOK_replace hok (by simp [hd0])⟩
      · exact le_max_left 0 _
      · show decrement_active_downloads a ≤ (nRun (l1 ++ Job.mk PC.done (d + 1) :: l2) : Int)
        unfold decrement_active_downloads
        rw [e2]
        apply max_zero_sub_le
        rw [show nRun (l1 ++ Job.mk PC.polling d :: l2) = nRun l1 + nRun l2 from e1] at hrun
        omega
      · show nSem (l1 ++ Job.mk PC.done (d + 1) :: l2) ≤ max_concurrent_downloads
        rw [e4]
        rw [show nSem (l1 ++ Job.mk PC.polling d :: l2) = nSem l1 + nSem l2 + 1 from e3] at hsem
        omega
  | abortPassed a l1 l2 d =>
      obtain ⟨hnn, hrun, hsem, hok⟩ := hinv
      dsimp only at hnn hrun hsem hok
      have hmid := JobsOK_mid hok
      have e1 := nRun_middle l1 l2 (Job.mk PC.passed d)
      have e2 := nRun_middle l1 l2 (Job.mk PC.done (d + 1))
      have e3 := nSem_middle l1 l2 (Job.mk PC.passed d)
      have e4 := nSem_middle l1 l2 (Job.mk PC.done (d + 1))
      simp only [isRunning, inSem] at e1 e2 e3 e4
      simp at e1 e2 e3 e4
      have hd0 : d = 0 := by simpa using hmid
      refine ⟨?_, ?_, ?_, JobsOK_replace hok (by simp [hd0])⟩
      · exact le_max_left 0 _
      · show decrement_active_downloads a ≤ (nRun (l1 ++ Job.mk PC.done (d + 1) :: l2) : Int)
        unfold decrement_active_downloads
        rw [e2]
        apply max_zero_sub_le
        rw [show nRun (l1 ++ Job.mk PC.passed d :: l2) = nRun l1 + nRun l2 from e1] at hrun
        omega
      · show nSem (l1 ++ Job.mk PC.done (d + 1) :: l2) ≤ max_concurrent_downloads
        rw [e4]
        rw [show nSem (l1 ++ Job.mk PC.passed d :: l2) = nSem l1 + nSem l2 + 1 from e3] at hsem
        omega

/-- Helper: every reachable state satisfies the limiter invariant. -/
theorem reachable_inv (n : Nat) (s : Sys) (h : Reachable n s) : LimiterInv s := by
  induction h with
  | init =>
      refine ⟨le_refl 0, ?_, ?_, ?_⟩
      · show (0 : Int) ≤ (nRun (initSys n).jobs : Int)
        exact Int.natCast_nonneg _
      · show nSem (initSys n).jobs ≤ max_concurrent_downloads
        have : nSem (List.replicate n (Job.mk PC.start 0)) = 0 := by
          unfold nSem
          rw [List.countP_eq_zero]
          intro j hj
          rw [List.eq_of_mem_replicate hj]
          simp [inSem]
        show nSem (List.replicate n (Job.mk PC.start 0)) ≤ max_concurrent_downloads
        rw [this]
        exact Nat.zero_le _
      · intro j hj
        rw [List.eq_of_mem_replicate hj]
        simp
  | step hr hst ih => exact step_preserves_inv ih hst

/-- C1: under every interleaving of any number of concurrent executions of
download_video_async, the active-downloads count never exceeds the cap
max_concurrent_downloads = 3, and every execution decrements the count exactly
once upon reaching its finally block, on the success path and on every failure
path: a finished job has performed exactly one decrement, an unfinished job
none. -/
theorem download_limiter_bounded (n : Nat) (s : Sys) (h : Reachable n s) :
    s.active ≤ (max_concurrent_downloads : Int) ∧
      ∀ j ∈ s.jobs, j.decs = if j.pc = PC.done then 1 else 0 := by
  obtain ⟨hnn, hrun, hsem, hok⟩ := reachable_inv n s h
  refine ⟨?_, hok⟩
  have h1 : (nRun s.jobs : Int) ≤ (nSem s.jobs : Int) := by
    exact_mod_cast nRun_le_nSem s.jobs
  have h2 : (nSem s.jobs : Int) ≤ (max_concurrent_downloads : Int) := by
    exact_mod_cast hsem
  exact le_trans hrun (le_trans h1 h2)

/-- C1 witness: a single job driven through its whole lifecycle, acquire,
poll, increment, finish, ends with the counter within the cap and exactly one
decrement recorded. -/
theorem download_limiter_bounded_witness :
    (Sys.mk (decrement_active_downloads (increment_active_downloads 0))
        [Job.mk PC.done 1]).active ≤ (max_concurrent_downloads : Int) ∧
      ∀ j ∈ (Sys.mk (decrement_active_downloads (increment_active_downloads 0))
          [Job.mk PC.done 1]).jobs,
        j.decs = if j.pc = PC.done then 1 else 0 :=
  download_limiter_bounded 1 _
    (Reachable.step
      (Reachable.step
        (Reachable.step
          (Reachable.step Reachable.init (Step.acquire 0 [] [] 0 (by decide)))
          (Step.checkPass 0 [] [] 0 (by decide)))
        (Step.increment 0 [] [] 0))
      (Step.finish (increment_active_downloads 0) [] [] 0))
